import Mathlib

/-!
Verification of the option-parity-matrix generator
(`tools/parity/generate_option_matrix.py`).

The Python source is shallowly embedded below: every pure function of the
tool is translated into an executable Lean definition operating on
`String` / `List Char`, with Python regular expressions hand-compiled into
equivalent deterministic scanners (the regexes involved are all
backtracking-free after analysis, so each one is realised as a
takeWhile/dropWhile pipeline that provably has the same semantics on the
pattern's character classes).  Character classes are modelled at ASCII
scope, which is the alphabet the tool's inputs use.

Python `set` values are modelled as lists, which is faithful because the
program only ever queries membership (never iteration order).
Python `dict` (insertion-ordered, last assignment wins) is modelled as an
association list read from the right.
-/

/-- ASCII whitespace, the character class of Python's `str.strip()` and
regex `\s` restricted to ASCII inputs. -/
def isPySpace (c : Char) : Bool :=
  c == ' ' || c == '\t' || c == '\n' || c == '\r' || c == '\x0b' || c == '\x0c'

/-- ASCII alphanumeric, the class `[A-Za-z0-9]`. -/
def isAsciiAlnum (c : Char) : Bool :=
  ('A' ≤ c && c ≤ 'Z') || ('a' ≤ c && c ≤ 'z') || ('0' ≤ c && c ≤ '9')

/-- Regex word character `\w` at ASCII scope: `[A-Za-z0-9_]`. -/
def isWordChar (c : Char) : Bool :=
  isAsciiAlnum c || c == '_'

/-- The class `[A-Z0-9_]` used for the `arg_info` field of an entry. -/
def isAllcapsChar (c : Char) : Bool :=
  ('A' ≤ c && c ≤ 'Z') || ('0' ≤ c && c ≤ '9') || c == '_'

/-- The class `[A-Za-z0-9-]` of long-option token characters. -/
def isLongTokenChar (c : Char) : Bool :=
  isAsciiAlnum c || c == '-'

/-- Python `str.strip()` on a character list (ASCII whitespace). -/
def pyStrip (l : List Char) : List Char :=
  ((l.dropWhile isPySpace).reverse.dropWhile isPySpace).reverse

/-- Python `str.strip()` on a string. -/
def pyStripS (s : String) : String :=
  String.mk (pyStrip s.toList)

/-- Python `str.strip('"')`: remove double quotes from both ends. -/
def stripQuotes (l : List Char) : List Char :=
  ((l.dropWhile (· == '\x22')).reverse.dropWhile (· == '\x22')).reverse

/-- Consume one expected character, as a single regex literal does. -/
def expectChar (c : Char) : List Char → Option (List Char)
  | x :: rest => if x = c then some rest else none
  | [] => none

/-- Consume `\s*`. -/
def skipWs (l : List Char) : List Char :=
  l.dropWhile isPySpace

/-- Substring test, Python's `needle in hay` on the character level
("" is a substring of everything, as in Python). -/
def isSubstr (needle : List Char) : List Char → Bool
  | [] => needle.isEmpty
  | c :: rest => needle.isPrefixOf (c :: rest) || isSubstr needle rest

/-- Python `key in name` for strings. -/
def strContains (hay needle : String) : Bool :=
  isSubstr needle.toList hay.toList

/-- Python `s.startswith(pre)` (list-level, so it evaluates by kernel
reduction). -/
def pyStartsWith (s pre : String) : Bool :=
  pre.toList.isPrefixOf s.toList

/-- Python `s[n:]` (list-level). -/
def strDrop (s : String) (n : Nat) : String :=
  String.mk (s.toList.drop n)

/- ### CommentStripper (`strip_comments`, source lines 14-15)
`re.sub(r"/\*.*?\*/", "", text, flags=re.S)`: remove every block comment,
shortest match, left to right.  An unclosed `/*` matches nothing and is
kept verbatim (and nothing after it can match either, since any later
closer would have closed the first opener). -/

/-- Does `*/` occur anywhere in the list? -/
def containsCommentClose : List Char → Bool
  | '*' :: '/' :: _ => true
  | _ :: rest => containsCommentClose rest
  | [] => false

/-- One-pass comment removal; the flag is true while inside a comment that
is known to be closed later. -/
def stripCommentsAux : Bool → List Char → List Char
  | false, '/' :: '*' :: rest =>
      if containsCommentClose rest then stripCommentsAux true rest
      else '/' :: '*' :: rest
  | false, c :: rest => c :: stripCommentsAux false rest
  | true, '*' :: '/' :: rest => stripCommentsAux false rest
  | true, _ :: rest => stripCommentsAux true rest
  | _, [] => []

/-- `strip_comments` from the source. -/
def strip_comments (text : String) : String :=
  String.mk (stripCommentsAux false text.toList)

/- ### DefaultsScanner (`parse_variable_defaults`, source lines 17-23)
`re.finditer(r"^int\s+([A-Za-z0-9_]+)\s*=\s*([^;]+);", source, flags=re.M)`
over the source text; `defaults[name] = value.strip()` for each match,
last assignment winning. -/

/-- A `DefaultsMap` in insertion order; a later pair for the same key
shadows an earlier one (Python dict assignment). -/
abbrev DefaultsMap := List (String × String)

/-- Python `dict.get`: the value of the last assignment to the key. -/
def defaultsGet (m : DefaultsMap) (k : String) : Option String :=
  (m.reverse.find? (fun p => p.1 == k)).map (·.2)

/-- Try the declaration pattern at the current position; on success return
the captured name, the stripped initializer, and the rest of the input
after the `;`.  The value group `[^;]+` runs to the first `;` and must be
nonempty; with the surrounding `\s*` and the later `.strip()` this is
exactly `pyStrip` of everything between `=` and the first `;`. -/
def matchIntDecl : List Char → Option (String × String × List Char)
  | 'i' :: 'n' :: 't' :: rest =>
      let ws1 := rest.takeWhile isPySpace
      if ws1.isEmpty then none else
      let r2 := rest.dropWhile isPySpace
      let name := r2.takeWhile isWordChar
      if name.isEmpty then none else
      let r3 := skipWs (r2.dropWhile isWordChar)
      match expectChar '=' r3 with
      | none => none
      | some r4 =>
        let raw := r4.takeWhile (fun c => !(c == ';'))
        if raw.isEmpty then none else
        match expectChar ';' (r4.dropWhile (fun c => !(c == ';'))) with
        | none => none
        | some r5 => some (String.mk name, String.mk (pyStrip raw), r5)
  | _ => none

/-- `finditer` driver: attempt the `^`-anchored pattern at every
line-start position, jumping over matched spans (non-overlapping
matches).  Fuel is the input length plus one, which every call consumes
slower than the list, so the fuel never runs out on the top-level call. -/
def pvdAux : Nat → Bool → List Char → List (String × String) → List (String × String)
  | 0, _, _, acc => acc
  | _ + 1, _, [], acc => acc
  | fuel + 1, atStart, c :: rest, acc =>
      if atStart then
        match matchIntDecl (c :: rest) with
        | some (n, v, after) => pvdAux fuel false after (acc ++ [(n, v)])
        | none => pvdAux fuel (c == '\n') rest acc
      else pvdAux fuel (c == '\n') rest acc

/-- `parse_variable_defaults` from the source: note that in `main` it is
applied to the raw `options_text`, not to the comment-stripped text. -/
def parse_variable_defaults (source : String) : DefaultsMap :=
  pvdAux (source.toList.length + 1) true source.toList []

/- ### Entry data model (source lines 10-12) -/

/-- The `Entry` namedtuple: `long` and `short` are `None` or a string in
Python, the remaining three fields are strings. -/
structure Entry where
  long : Option String
  short : Option String
  arg_info : String
  arg_ptr : String
  value : String
deriving DecidableEq, Repr

/-- The fatal conditions of the tool (uncaught `ValueError`s in Python):
the table markers missing, a malformed record, or an entry reaching the
identifier stage with neither name. -/
inductive MatrixError where
  | structureNotFound : MatrixError
  | entryParseError : String → MatrixError
  | identifierError : MatrixError
deriving DecidableEq, Repr

/- ### parse_entry (source lines 41-58)
The stripped record is first compared with the two literal sentinel
spellings, then matched against
`^\{\s*(?:"([^"]*)"|0)\s*,\s*(?:'([^']*)'|0)\s*,\s*([A-Z0-9_]+)\s*,\s*([^,]+)\s*,\s*([^,]+)\s*,`.
Each `\s*([^,]+)\s*,` piece deterministically captures everything from
just after the previous comma up to the next comma (which must exist,
with at least one character before it); composed with the later
`.strip()` this equals `pyStrip` of that whole span, so the matcher below
folds the surrounding whitespace into the raw span. -/

/-- Hand-compiled form of the entry regex.  Returns the five capture
groups (quoted groups as `some` of their contents, the `0` alternative as
`none`); `re.match` only anchors at the start, so trailing text after the
final comma is ignored. -/
def matchEntryPattern (l : List Char) :
    Option (Option (List Char) × Option (List Char) × List Char × List Char × List Char) :=
  match expectChar '\x7b' l with
  | none => none
  | some r0 =>
    let r1 := skipWs r0
    match
      (match r1 with
       | '\x22' :: rest =>
           let content := rest.takeWhile (fun c => !(c == '\x22'))
           match expectChar '\x22' (rest.dropWhile (fun c => !(c == '\x22'))) with
           | some r => some (some content, r)
           | none => none
       | '0' :: rest => some (none, rest)
       | _ => none) with
    | none => none
    | some (lraw, r2) =>
      match expectChar ',' (skipWs r2) with
      | none => none
      | some r3 =>
        let r4 := skipWs r3
        match
          (match r4 with
           | '\x27' :: rest =>
               let content := rest.takeWhile (fun c => !(c == '\x27'))
               match expectChar '\x27' (rest.dropWhile (fun c => !(c == '\x27'))) with
               | some r => some (some content, r)
               | none => none
           | '0' :: rest => some (none, rest)
           | _ => none) with
        | none => none
        | some (sraw, r5) =>
          match expectChar ',' (skipWs r5) with
          | none => none
          | some r6 =>
            let r7 := skipWs r6
            let g3 := r7.takeWhile isAllcapsChar
            if g3.isEmpty then none else
            match expectChar ',' (skipWs (r7.dropWhile isAllcapsChar)) with
            | none => none
            | some r9 =>
              let g4 := r9.takeWhile (fun c => !(c == ','))
              if g4.isEmpty then none else
              match expectChar ',' (r9.dropWhile (fun c => !(c == ','))) with
              | none => none
              | some r11 =>
                let g5 := r11.takeWhile (fun c => !(c == ','))
                if g5.isEmpty then none else
                match expectChar ',' (r11.dropWhile (fun c => !(c == ','))) with
                | none => none
                | some _ => some (lraw, sraw, g3, g4, g5)

/-- `long_opt`: `None` unless the quoted long group is truthy and not the
literal `'""'`. -/
def longFromRaw : Option (List Char) → Option String
  | none => none
  | some cs =>
      if cs.isEmpty then none
      else if String.mk cs = "\x22\x22" then none
      else some (String.mk (stripQuotes cs))

/-- `short_opt`: `None` unless the quoted short group is truthy. -/
def shortFromRaw : Option (List Char) → Option String
  | none => none
  | some cs => if cs.isEmpty then none else some (String.mk cs)

/-- The post-matching construction of an `Entry` from the five captures;
an entry with neither name is dropped (`return None`). -/
def mkParsedEntry (lraw sraw : Option (List Char)) (g3 g4 g5 : List Char) : Option Entry :=
  if longFromRaw lraw = none ∧ shortFromRaw sraw = none then none
  else some ⟨longFromRaw lraw, shortFromRaw sraw,
             String.mk (pyStrip g3), String.mk (pyStrip g4), String.mk (pyStrip g5)⟩

/-- `parse_entry` from the source: `ok none` is Python's `return None`
(sentinel or degenerate record, silently dropped), `error` is the raised
`ValueError`. -/
def parse_entry (s : String) : Except MatrixError (Option Entry) :=
  if String.mk (pyStrip s.toList) = "\x7b0,0,0,0,0,0,0\x7d" ∨
     String.mk (pyStrip s.toList) = "\x7b0, 0, 0, 0, 0, 0, 0\x7d" then .ok none
  else
    match matchEntryPattern (pyStrip s.toList) with
    | none =>
        .error (.entryParseError ("Unable to parse entry: " ++ String.mk (pyStrip s.toList)))
    | some (lraw, sraw, g3, g4, g5) => .ok (mkParsedEntry lraw sraw g3 g4 g5)

/- ### parse_entries (source lines 26-38)
`text.index` of the fixed opening marker, then of `"\n};"`, extracting the
table body; `re.finditer(r"\{[^{}]*\}", body)` segments it into flat
brace-delimited records; each record is parsed and `None` results are
dropped. -/

/-- Suffix of the input just after the first occurrence of `pat`
(Python `text.index(pat) + len(pat)`); `none` when absent. -/
def afterSub (pat : List Char) : List Char → Option (List Char)
  | [] => if pat.isEmpty then some [] else none
  | c :: rest =>
      if pat.isPrefixOf (c :: rest) then some ((c :: rest).drop pat.length)
      else afterSub pat rest

/-- Prefix of the input before the first occurrence of `pat`; `none` when
absent. -/
def upToSub (pat : List Char) : List Char → Option (List Char)
  | [] => if pat.isEmpty then some [] else none
  | c :: rest =>
      if pat.isPrefixOf (c :: rest) then some []
      else (upToSub pat rest).map (c :: ·)

/-- `re.finditer(r"\{[^{}]*\}", body)`: every maximal brace-delimited
substring containing no nested brace.  The accumulator is `some acc` while
inside a candidate record; an inner `{` restarts the candidate (the
regex cannot match across it). -/
def ffrAux : Option (List Char) → List Char → List (List Char)
  | none, [] => []
  | none, '\x7b' :: rest => ffrAux (some []) rest
  | none, _ :: rest => ffrAux none rest
  | some _, [] => []
  | some acc, '\x7d' :: rest => ('\x7b' :: (acc ++ ['\x7d'])) :: ffrAux none rest
  | some _, '\x7b' :: rest => ffrAux (some []) rest
  | some acc, c :: rest => ffrAux (some (acc ++ [c])) rest

/-- The table region of the comment-stripped source: between the fixed
opening marker and the `"\n};"` terminator. -/
def tableBody (source : String) : Option (List Char) :=
  let text := (strip_comments source).toList
  match afterSub ("static struct poptOption long_options[] = \x7b".toList) text with
  | none => none
  | some t => upToSub ("\n\x7d;".toList) t

/-- The record-collection loop of `parse_entries`: raise on the first
malformed record, drop `None` results, keep source order. -/
def collectEntries : List (List Char) → Except MatrixError (List Entry)
  | [] => .ok []
  | r :: rs =>
      match parse_entry (String.mk r) with
      | .error e => .error e
      | .ok none => collectEntries rs
      | .ok (some ent) =>
          match collectEntries rs with
          | .error e => .error e
          | .ok tail => .ok (ent :: tail)

/-- `parse_entries` from the source; a missing marker is the fatal
`StructureNotFound` condition (Python's uncaught `ValueError` from
`str.index`). -/
def parse_entries (source : String) : Except MatrixError (List Entry) :=
  match tableBody source with
  | none => .error .structureNotFound
  | some body => collectEntries (ffrAux none body)

/- ### HelpScanner (`parse_help_options`, source lines 60-67)
Long pass: `re.finditer(r"--([A-Za-z0-9][A-Za-z0-9-]*)", help_text)`.
Short pass: `re.finditer(r"(?<!-)\B-([A-Za-z0-9])", help_text)`.
For the short pass, the dash `-` is a non-word character, so the `\B`
assertion holds at a dash exactly when the preceding character is absent
or is itself a non-word character; combined with the lookbehind `(?<!-)`
the dash matches exactly when it is at position 0 or preceded by a
character that is neither a word character nor a dash. -/

/-- One long-option token scan step; `some acc` is used while inside a
token.  A match failure at `--` advances one position, exactly as
`finditer` retries; the character ending a token can never start a new
match (it is neither alphanumeric nor a dash), so the scan may resume
after it. -/
def longScanAux : Option (List Char) → List Char → List (List Char)
  | none, '-' :: '-' :: c :: rest =>
      if isAsciiAlnum c then longScanAux (some [c]) rest
      else longScanAux none ('-' :: c :: rest)
  | none, _ :: rest => longScanAux none rest
  | none, [] => []
  | some acc, c :: rest =>
      if isLongTokenChar c then longScanAux (some (acc ++ [c])) rest
      else acc :: longScanAux none rest
  | some acc, [] => [acc]

/-- The lookbehind condition of the short-option pattern at position `i`
of the full text: position 0, or a preceding character that is neither a
word character nor a dash (`(?<!-)` together with `\B` before the
non-word `-`). -/
def shortPrecOk (full : List Char) (i : Nat) : Bool :=
  i == 0 ||
    (match full.get? (i - 1) with
     | some p => !(isWordChar p) && !(p == '-')
     | none => true)

/-- Short-option scan with match positions: at each position try
`-<alnum>` guarded by `shortPrecOk`; a match consumes both characters
(the following candidate position cannot match anyway, so this equals
single-step retrying). -/
def shortScanAux (full : List Char) : Nat → List Char → List (Nat × Char)
  | _, [] => []
  | i, x :: rest =>
      if x = '-' then
        match rest with
        | [] => []
        | c :: rest2 =>
            if isAsciiAlnum c && shortPrecOk full i then
              (i, c) :: shortScanAux full (i + 2) rest2
            else shortScanAux full (i + 1) (c :: rest2)
      else shortScanAux full (i + 1) rest

/-- All short-option matches of a help text, with the position of the
introducing dash. -/
def shortMatches (help : String) : List (Nat × Char) :=
  shortScanAux help.toList 0 help.toList

/-- `parse_help_options` from the source; the Python sets are modelled as
lists (the program only queries membership). -/
def parse_help_options (help_text : String) : List String × List String :=
  ((longScanAux none help_text.toList).map String.mk,
   (shortMatches help_text).map (fun p => String.mk [p.2]))

/- ### categorize (source lines 69-109) -/

def deletionKeys : List String :=
  ["delete", "remove", "prune", "max-delete", "ignore-missing-args"]

def traversalKeys : List String :=
  ["archive", "recursive", "dirs", "mkpath", "implied", "relative", "one-file-system"]

def metadataKeys : List String :=
  ["perms", "owner", "group", "acls", "xattr", "chmod", "times", "numeric",
   "chown", "usermap", "groupmap", "omit"]

def transferKeys : List String :=
  ["compress", "checksum", "bwlimit", "block-size", "whole-file", "append",
   "sparse", "preallocate", "inplace", "partial", "progress", "stats", "log", "fsync"]

def filterKeys : List String :=
  ["filter", "include", "exclude", "files-from", "from0", "cvs"]

def daemonKeys : List String :=
  ["daemon", "config", "password", "motd", "module"]

def connectionKeys : List String :=
  ["ipv", "rsh", "rsync-path", "connect", "port", "address", "sock", "timeout",
   "contimeout", "protocol", "remote", "blocking"]

def loggingKeys : List String :=
  ["debug", "verbose", "info", "msgs2stderr", "outbuf", "out-format", "itemize"]

/-- `any(key in name for key in keys)`. -/
def anyKeyIn (keys : List String) (name : String) : Bool :=
  keys.any (fun k => strContains name k)

/-- The long name normalised by removing a leading `no-`. -/
def stripNo (s : String) : String :=
  if pyStartsWith s "no-" then strDrop s 3 else s

/-- `categorize` from the source: Python falsiness of `option` covers both
`None` and the empty string. -/
def categorize (option : Option String) : String :=
  match option with
  | none => "general"
  | some s =>
      if s = "" then "general"
      else
        let name := stripNo s
        if anyKeyIn deletionKeys name then "deletion"
        else if anyKeyIn traversalKeys name then "traversal"
        else if anyKeyIn metadataKeys name then "metadata"
        else if anyKeyIn transferKeys name then "transfer"
        else if anyKeyIn filterKeys name then "filters"
        else if anyKeyIn daemonKeys name then "daemon"
        else if anyKeyIn connectionKeys name then "connection"
        else if anyKeyIn loggingKeys name then "logging"
        else "general"

/- ### describe_default (source lines 111-123) -/

/-- `describe_default` from the source. -/
def describe_default (arg_ptr value : String) (defaults : DefaultsMap) : String :=
  if pyStartsWith arg_ptr "&" then
    match defaultsGet defaults (strDrop arg_ptr 1) with
    | none => "n/a"
    | some default_value =>
        let normalized_default := pyStripS default_value
        if value = "0" ∧ normalized_default ≠ "0" then
          "enabled by default (" ++ normalized_default ++ ")"
        else if normalized_default = "0" then "disabled by default"
        else "default " ++ normalized_default
  else "n/a"

/- ### status_for (source lines 125-136) -/

/-- Python truthiness of an optional string: `None` and `""` are falsy. -/
def optTruthy : Option String → Bool
  | some s => !(s == "")
  | none => false

/-- Membership of an optional string in a list (`x in s` with `x` known
non-`None`; a `none` never gets this far because of the truthiness
guard). -/
def optMem (o : Option String) (l : List String) : Bool :=
  match o with
  | some s => l.contains s
  | none => false

/-- The closed alias set of `status_for`. -/
def aliasSet : List String :=
  ["del", "no-W", "no-c", "no-i", "no-d", "no-r", "no-p", "no-o", "no-g"]

/-- `"; ".join(notes)`. -/
def joinNotes : List String → String
  | [] => ""
  | [x] => x
  | x :: y :: rest => x ++ "; " ++ joinNotes (y :: rest)

/-- `status_for` from the source: the status string and the joined notes. -/
def status_for (e : Entry) (implemented_longs implemented_shorts : List String) :
    String × String :=
  let status :=
    if optTruthy e.long && optMem e.long implemented_longs then "implemented"
    else if optTruthy e.short && optMem e.short implemented_shorts then "implemented"
    else "missing"
  let n1 : List String :=
    if (match e.long with
        | some l => !(l == "") && pyStartsWith l "no-"
        | none => false) then ["Negates the corresponding positive option."] else []
  let n2 : List String :=
    if (match e.long with
        | some l => aliasSet.contains l
        | none => false) then ["Alias maintained for compatibility."] else []
  (status, joinNotes (n1 ++ n2))

/- ### make_option_identifier (source lines 138-143) -/

/-- `make_option_identifier` from the source; raising `ValueError` is the
error case. -/
def make_option_identifier (e : Entry) : Except MatrixError String :=
  if optTruthy e.long then .ok ("--" ++ e.long.getD "")
  else if optTruthy e.short then .ok ("-" ++ e.short.getD "" ++ " (short-only)")
  else .error .identifierError

/- ### main loop and rendering (source lines 145-188) -/

/-- One row of the parity matrix, with the six output fields in their
fixed order. -/
structure OptionRecord where
  option : String
  short : String
  category : String
  upstream_default : String
  status : String
  notes : String
deriving DecidableEq, Repr

/-- The loop body of `main` for a single entry. -/
def classifyEntry (e : Entry) (defaults : DefaultsMap)
    (implemented_longs implemented_shorts : List String) :
    Except MatrixError OptionRecord :=
  match make_option_identifier e with
  | .error err => .error err
  | .ok identifier =>
      let sn := status_for e implemented_longs implemented_shorts
      .ok ⟨identifier,
           e.short.getD "",
           categorize e.long,
           describe_default e.arg_ptr e.value defaults,
           sn.1,
           sn.2⟩

/-- The `for entry in entries` loop of `main`. -/
def classifyAll (defaults : DefaultsMap) (implemented_longs implemented_shorts : List String) :
    List Entry → Except MatrixError (List OptionRecord)
  | [] => .ok []
  | e :: rest =>
      match classifyEntry e defaults implemented_longs implemented_shorts with
      | .error err => .error err
      | .ok r =>
          match classifyAll defaults implemented_longs implemented_shorts rest with
          | .error err => .error err
          | .ok rs => .ok (r :: rs)

/-- The matrix computation of `main`: note `parse_variable_defaults` is
applied to the raw `options_text` while `parse_entries` strips comments
internally. -/
def mainRecords (options_text help_text : String) :
    Except MatrixError (List OptionRecord) :=
  match parse_entries options_text with
  | .error err => .error err
  | .ok entries =>
      classifyAll (parse_variable_defaults options_text)
        (parse_help_options help_text).1 (parse_help_options help_text).2 entries

/-- The `--format` selector. -/
inductive OutputFormat where
  | json : OutputFormat
  | yaml : OutputFormat
deriving DecidableEq, Repr

/-- One YAML stanza, exactly the `print` calls of the YAML branch
(each `print` appends a newline; empty notes render as `""`). -/
def yamlRecord (r : OptionRecord) : String :=
  "  - option: " ++ r.option ++ "\n" ++
  "    short: " ++ r.short ++ "\n" ++
  "    category: " ++ r.category ++ "\n" ++
  "    upstream_default: " ++ r.upstream_default ++ "\n" ++
  "    status: " ++ r.status ++ "\n" ++
  (if r.notes = "" then "    notes: \x22\x22\n"
   else "    notes: " ++ r.notes ++ "\n")

/-- The YAML rendering of the matrix (stdout bytes). -/
def renderYaml (rs : List OptionRecord) : String :=
  "options:\n" ++ String.join (rs.map yamlRecord)

/-- Hexadecimal digit as produced by Python's `\uXXXX` escapes. -/
def hexDigit (n : Nat) : Char :=
  if n < 10 then Char.ofNat (48 + n) else Char.ofNat (87 + n)

/-- Four-digit hexadecimal rendering. -/
def hex4 (n : Nat) : String :=
  String.mk [hexDigit (n / 4096 % 16), hexDigit (n / 256 % 16),
             hexDigit (n / 16 % 16), hexDigit (n % 16)]

/-- `json.dumps` escaping of one character (`ensure_ascii=True`). -/
def jsonEscapeChar (c : Char) : String :=
  if c = '\x22' then "\\\x22"
  else if c = '\\' then "\\\\"
  else if c = '\n' then "\\n"
  else if c = '\t' then "\\t"
  else if c = '\r' then "\\r"
  else if c = '\x08' then "\\b"
  else if c = '\x0c' then "\\f"
  else if c.toNat < 32 ∨ c.toNat ≥ 127 then
    if c.toNat < 65536 then "\\u" ++ hex4 c.toNat
    else
      let v := c.toNat - 65536
      "\\u" ++ hex4 (55296 + v / 1024) ++ "\\u" ++ hex4 (56320 + v % 1024)
  else String.mk [c]

/-- A JSON string literal for `s`. -/
def jsonString (s : String) : String :=
  "\x22" ++ String.join (s.toList.map jsonEscapeChar) ++ "\x22"

/-- One object of the `json.dumps(matrix, indent=2)` array. -/
def jsonRecord (r : OptionRecord) : String :=
  "  \x7b\n" ++
  "    " ++ jsonString "option" ++ ": " ++ jsonString r.option ++ ",\n" ++
  "    " ++ jsonString "short" ++ ": " ++ jsonString r.short ++ ",\n" ++
  "    " ++ jsonString "category" ++ ": " ++ jsonString r.category ++ ",\n" ++
  "    " ++ jsonString "upstream_default" ++ ": " ++ jsonString r.upstream_default ++ ",\n" ++
  "    " ++ jsonString "status" ++ ": " ++ jsonString r.status ++ ",\n" ++
  "    " ++ jsonString "notes" ++ ": " ++ jsonString r.notes ++ "\n" ++
  "  \x7d"

/-- Comma-newline interleaving of array items. -/
def joinItems : List String → String
  | [] => ""
  | [x] => x
  | x :: y :: rest => x ++ ",\n" ++ joinItems (y :: rest)

/-- `print(json.dumps(matrix, indent=2))` (stdout bytes, trailing newline
from `print`). -/
def renderJson (rs : List OptionRecord) : String :=
  (if rs.isEmpty then "[]" else "[\n" ++ joinItems (rs.map jsonRecord) ++ "\n]") ++ "\n"

/-- Everything `main` writes to stdout, or the fatal error that aborted
the run before any output was produced. -/
def mainOutput (options_text help_text : String) (fmt : OutputFormat) :
    Except MatrixError String :=
  match mainRecords options_text help_text with
  | .error err => .error err
  | .ok matrix =>
      .ok (match fmt with
           | .json => renderJson matrix
           | .yaml => renderYaml matrix)

/- ### Specification-side classifier (for claim C4)
Modelled from the spec: category assignment as "a fixed, ordered list of
(category, keyword-set) pairs evaluated in sequence with
first-match-wins", the long name normalised by stripping a leading `no-`,
and `general` when no test matches or there is no long name. -/

/-- The spec's ordered priority list of category tests. -/
def categoryPriority : List (String × List String) :=
  [("deletion", deletionKeys), ("traversal", traversalKeys),
   ("metadata", metadataKeys), ("transfer", transferKeys),
   ("filters", filterKeys), ("daemon", daemonKeys),
   ("connection", connectionKeys), ("logging", loggingKeys)]

/-- First-match-wins evaluation of the priority list. -/
def firstCategory (name : String) : List (String × List String) → String
  | [] => "general"
  | (cat, keys) :: rest =>
      if anyKeyIn keys name then cat else firstCategory name rest

/-- Modelled from the spec: the classifier's category rule as worded in
the spec (a long name that is absent or empty is "no long name"). -/
def categorizeSpec (option : Option String) : String :=
  match option with
  | none => "general"
  | some s =>
      if s = "" then "general"
      else firstCategory (stripNo s) categoryPriority

/- ### Record builders used to state claim C9
A flat declaration record consists of the five significant fields — a
long slot (quoted name or the `0` literal), a short slot (quoted flag or
the `0` literal), an ALLCAPS token and two expressions — followed either
by the comma that closes the fifth field and arbitrary trailing text, or
(in the five-fields-only form) directly by the closing brace. -/

/-- The long slot: `"name"` or the literal `0`. -/
def longSlot : Option (List Char) → List Char
  | none => ['0']
  | some cs => '\x22' :: (cs ++ ['\x22'])

/-- The short slot: `'c'` or the literal `0`. -/
def shortSlot : Option (List Char) → List Char
  | none => ['0']
  | some cs => '\x27' :: (cs ++ ['\x27'])

/-- Character-level record builder: five fields, the comma closing the
fifth field, and arbitrary trailing text. -/
def mkRecordL (lRaw sRaw : Option (List Char)) (aL pL vL tL : List Char) :
    List Char :=
  '\x7b' :: (longSlot lRaw ++ ',' :: (shortSlot sRaw ++ ',' ::
    (aL ++ ',' :: (pL ++ ',' :: (vL ++ ',' :: tL)))))

/-- A flat record with long slot `l`, short slot `sc`, `arg_info` `a`,
fourth and fifth fields `p` and `v`, and arbitrary further text `suffix`
after the comma that closes the fifth field. -/
def mkRecord (l sc : Option String) (a p v suffix : String) : String :=
  String.mk (mkRecordL (l.map String.toList) (sc.map String.toList)
    a.toList p.toList v.toList suffix.toList)

/-- Character-level builder of a record with exactly the five significant
fields: the closing brace follows the fifth field directly, no comma. -/
def mkRecordFlatL (lRaw sRaw : Option (List Char)) (aL pL vL : List Char) :
    List Char :=
  '\x7b' :: (longSlot lRaw ++ ',' :: (shortSlot sRaw ++ ',' ::
    (aL ++ ',' :: (pL ++ ',' :: (vL ++ ['\x7d'])))))

/-- A record consisting of exactly the five significant fields. -/
def mkRecordFlat (l sc : Option String) (a p v : String) : String :=
  String.mk (mkRecordFlatL (l.map String.toList) (sc.map String.toList)
    a.toList p.toList v.toList)

/- ### Helper lemmas -/

theorem dropWhileEqSelf (p : Char → Bool) (l : List Char)
    (h : ∀ x ∈ l, p x = false) : l.dropWhile p = l := by
  cases l with
  | nil => rfl
  | cons x xs => simp [List.dropWhile, h x (List.mem_cons_self x xs)]

theorem pyStripEqSelf (l : List Char) (h : ∀ x ∈ l, isPySpace x = false) :
    pyStrip l = l := by
  unfold pyStrip
  rw [dropWhileEqSelf _ _ h, dropWhileEqSelf, List.reverse_reverse]
  intro x hx
  exact h x (List.mem_reverse.mp hx)

theorem stripQuotesEqSelf (l : List Char) (h : '\x22' ∉ l) :
    stripQuotes l = l := by
  have h' : ∀ x ∈ l, (x == '\x22') = false := by
    intro x hx
    simp only [beq_eq_false_iff_ne, ne_eq]
    rintro rfl
    exact h hx
  unfold stripQuotes
  rw [dropWhileEqSelf _ _ h', dropWhileEqSelf, List.reverse_reverse]
  intro x hx
  exact h' x (List.mem_reverse.mp hx)

/- ### C1 -/

/-- C1: the whole pipeline is deterministic — identical input texts give
byte-identical output, and the classifier is a pure function of the
Entry, DefaultsMap and help token sets, so re-running it on equal inputs
yields identical OptionRecords. -/
theorem c1_pipeline_deterministic (o₁ o₂ h₁ h₂ : String) (fmt : OutputFormat)
    (ho : o₁ = o₂) (hh : h₁ = h₂) :
    mainOutput o₁ h₁ fmt = mainOutput o₂ h₂ fmt ∧
    ∀ (e : Entry) (d : DefaultsMap) (ls ss : List String),
      classifyEntry e d ls ss = classifyEntry e d ls ss := by
  subst ho
  subst hh
  exact ⟨rfl, fun _ _ _ _ => rfl⟩

/-- Witness for C1 at a concrete pair of input texts and a concrete
classifier instance. -/
theorem c1_pipeline_deterministic_witness :
    mainOutput "int a = 1;" "-v" OutputFormat.yaml =
      mainOutput "int a = 1;" "-v" OutputFormat.yaml ∧
    classifyEntry ⟨some "delete", none, "OPT", "&x", "1"⟩ [("x", "0")] ["delete"] [] =
      classifyEntry ⟨some "delete", none, "OPT", "&x", "1"⟩ [("x", "0")] ["delete"] [] :=
  ⟨(c1_pipeline_deterministic "int a = 1;" "int a = 1;" "-v" "-v" OutputFormat.yaml rfl rfl).1,
   (c1_pipeline_deterministic "int a = 1;" "int a = 1;" "-v" "-v" OutputFormat.yaml rfl rfl).2
     ⟨some "delete", none, "OPT", "&x", "1"⟩ [("x", "0")] ["delete"] []⟩

/- ### C3 -/

/-- C3: `upstream_default` is `n/a` when `arg_ptr` does not begin with the
`&` sigil or the referenced variable is absent from the map; otherwise it
is rendered from the entry's `value` literal and the variable's
(stripped) default literal by the three-way rule of `describe_default`. -/
theorem c3_describe_default_cases (arg_ptr value : String) (defaults : DefaultsMap) :
    (pyStartsWith arg_ptr "&" = false → describe_default arg_ptr value defaults = "n/a") ∧
    (pyStartsWith arg_ptr "&" = true → defaultsGet defaults (strDrop arg_ptr 1) = none →
      describe_default arg_ptr value defaults = "n/a") ∧
    (∀ dv, pyStartsWith arg_ptr "&" = true →
      defaultsGet defaults (strDrop arg_ptr 1) = some dv →
      ((value = "0" → pyStripS dv ≠ "0" →
          describe_default arg_ptr value defaults =
            "enabled by default (" ++ pyStripS dv ++ ")") ∧
       (pyStripS dv = "0" →
          describe_default arg_ptr value defaults = "disabled by default") ∧
       (value ≠ "0" → pyStripS dv ≠ "0" →
          describe_default arg_ptr value defaults = "default " ++ pyStripS dv))) := by
  refine ⟨?_, ?_, ?_⟩
  · intro hpre
    simp [describe_default, hpre]
  · intro hpre hget
    simp [describe_default, hpre, hget]
  · intro dv hpre hget
    refine ⟨?_, ?_, ?_⟩
    · intro hv hd
      simp [describe_default, hpre, hget, hv, hd]
    · intro hd
      have : ¬ (value = "0" ∧ pyStripS dv ≠ "0") := by
        rintro ⟨_, hne⟩
        exact hne hd
      simp [describe_default, hpre, hget, this, hd]
    · intro hv hd
      simp [describe_default, hpre, hget, hv, hd]

/-- Witness for C3: the spec's three worked examples plus the `n/a`
cases, each obtained by instantiating the theorem. -/
theorem c3_describe_default_cases_witness :
    describe_default "xx" "0" [("x", "1")] = "n/a" ∧
    describe_default "&y" "0" [("x", "1")] = "n/a" ∧
    describe_default "&x" "0" [("x", "1")] = "enabled by default (1)" ∧
    describe_default "&x" "0" [("x", "0")] = "disabled by default" ∧
    describe_default "&x" "1" [("x", "5")] = "default 5" :=
  ⟨(c3_describe_default_cases "xx" "0" [("x", "1")]).1 (by decide),
   (c3_describe_default_cases "&y" "0" [("x", "1")]).2.1 (by decide) (by decide),
   ((c3_describe_default_cases "&x" "0" [("x", "1")]).2.2 "1" (by decide) (by decide)).1 rfl (by decide),
   ((c3_describe_default_cases "&x" "0" [("x", "0")]).2.2 "0" (by decide) (by decide)).2.1 (by decide),
   ((c3_describe_default_cases "&x" "1" [("x", "5")]).2.2 "5" (by decide) (by decide)).2.2 (by decide) (by decide)⟩

/- ### C4 -/

/-- C4: category assignment equals the spec's ordered first-match-wins
evaluation of the eight keyword tests against the `no-`-stripped long
name, with `general` as the fallback; and the three worked examples of
the spec hold. -/
theorem c4_category_priority (o : Option String) :
    categorize o = categorizeSpec o ∧
    categorize (some "delete") = "deletion" ∧
    categorize (some "compress") = "transfer" ∧
    categorize (some "foo-unrelated") = "general" := by
  refine ⟨?_, by decide, by decide, by decide⟩
  cases o with
  | none => rfl
  | some s => rfl

/- ### C10 -/

/-- C10 counterexample: the claim's own example word `undeletable` does
not contain the character sequence `delete` (the code's substring test is
false on it) and the classifier assigns it `general`, not `deletion`. -/
theorem c10_counterexample :
    strContains "undeletable" "delete" = false ∧
    categorize (some "undeletable") = "general" := by
  constructor
  · decide
  · decide

/-- C10 (amended): keyword classification is substring containment, not
whole-word matching — any long name whose `no-`-stripped form contains
`delete` anywhere (e.g. inside the longer word `undeleted`) is assigned
category `deletion`. -/
theorem c10_substring_containment (s : String)
    (h : strContains (stripNo s) "delete" = true) :
    categorize (some s) = "deletion" := by
  have hne : ¬ (s = "") := by
    rintro rfl
    rw [show stripNo "" = "" from rfl] at h
    exact absurd h (by decide)
  have hany : anyKeyIn deletionKeys (stripNo s) = true := by
    simp only [anyKeyIn, deletionKeys, List.any_cons, Bool.or_eq_true]
    exact Or.inl h
  simp [categorize, hne, hany]

/-- Witness for C10 at the long name `undeleted`, which contains `delete`
strictly inside a longer word. -/
theorem c10_substring_containment_witness :
    categorize (some "undeleted") = "deletion" :=
  c10_substring_containment "undeleted" (by decide)

/- ### C8 -/

/-- C8 counterexample: a line-anchored `int` declaration that exists only
inside a block comment IS captured by the defaults scan — the scan runs
on the raw source text (comment stripping would erase this whole input),
contradicting the claim that such declarations are never captured. -/
theorem c8_counterexample :
    defaultsGet (parse_variable_defaults "/*\nint x = 5;\n*/") "x" = some "5" ∧
    strip_comments "/*\nint x = 5;\n*/" = "" := by
  constructor
  · rfl
  · rfl

/-- C8 (amended): the defaults scan operates on the raw source text —
comments are stripped only inside the entry scan — so a declaration
visible only inside a block comment is captured and flows into the
emitted matrix.  End to end: a source whose only `int x = 5;` lies inside
a comment still yields `upstream_default = "default 5"` for an entry
bound to `&x`, even though the comment-stripped source mentions no `int`
at all. -/
theorem c8_defaults_scanned_from_raw_text :
    mainRecords
      "/*\nint x = 5;\n*/\nstatic struct poptOption long_options[] = \x7b\n\x7b\x22foo\x22, 0, OPT, &x, 1, 0, 0\x7d,\n\x7b0,0,0,0,0,0,0\x7d\n\x7d;\n"
      "" =
      .ok [⟨"--foo", "", "general", "default 5", "missing", ""⟩] ∧
    strContains
      (strip_comments
        "/*\nint x = 5;\n*/\nstatic struct poptOption long_options[] = \x7b\n\x7b\x22foo\x22, 0, OPT, &x, 1, 0, 0\x7d,\n\x7b0,0,0,0,0,0,0\x7d\n\x7d;\n")
      "int" = false := by
  constructor
  · rfl
  · rfl

/- ### C2 -/

/-- C2: for every Entry whose optional names are well-formed (no empty
strings, which the entry parser never produces), the status is
`implemented` exactly when the long name is present and belongs to the
help text's long set, or the short flag is present and belongs to its
short set; in every other case the status is `missing`. -/
theorem c2_status_iff_membership (e : Entry) (ls ss : List String)
    (hl : e.long ≠ some "") (hs : e.short ≠ some "") :
    ((status_for e ls ss).1 = "implemented" ↔
      ((∃ l, e.long = some l ∧ l ∈ ls) ∨ (∃ s, e.short = some s ∧ s ∈ ss))) ∧
    ((status_for e ls ss).1 = "implemented" ∨ (status_for e ls ss).1 = "missing") := by
  obtain ⟨lo, so, a, p, v⟩ := e
  simp only [ne_eq, Option.some.injEq] at hl hs
  constructor
  · cases lo with
    | none =>
        cases so with
        | none =>
            simp [status_for, optTruthy, optMem]
        | some s =>
            have hs' : (s == "") = false := by
              cases so_eq : s == "" with
              | false => rfl
              | true => exact absurd (by simpa using so_eq) (by simpa using hs)
            by_cases hmem : s ∈ ss
            · simp [status_for, optTruthy, optMem, hs', List.elem_iff, hmem]
            · simp [status_for, optTruthy, optMem, hs', List.elem_iff, hmem]
    | some l =>
        have hl' : (l == "") = false := by
          cases lo_eq : l == "" with
          | false => rfl
          | true => exact absurd (by simpa using lo_eq) (by simpa using hl)
        cases so with
        | none =>
            by_cases hmem : l ∈ ls
            · simp [status_for, optTruthy, optMem, hl', List.elem_iff, hmem]
            · simp [status_for, optTruthy, optMem, hl', List.elem_iff, hmem]
        | some s =>
            have hs' : (s == "") = false := by
              cases so_eq : s == "" with
              | false => rfl
              | true => exact absurd (by simpa using so_eq) (by simpa using hs)
            by_cases hmeml : l ∈ ls
            · simp [status_for, optTruthy, optMem, hl', hs', List.elem_iff, hmeml]
            · by_cases hmems : s ∈ ss
              · simp [status_for, optTruthy, optMem, hl', hs', List.elem_iff,
                      hmeml, hmems]
              · simp [status_for, optTruthy, optMem, hl', hs', List.elem_iff,
                      hmeml, hmems]
  · simp only [status_for]
    split
    · exact Or.inl rfl
    · split
      · exact Or.inl rfl
      · exact Or.inr rfl

/-- Witness for C2: the spec's `checksum` example — present in the help
long set it is `implemented`, absent from both sets it is `missing`. -/
theorem c2_status_iff_membership_witness :
    (((status_for ⟨some "checksum", none, "OPT", "p", "0"⟩ ["checksum"] []).1 = "implemented" ↔
       ((∃ l, (some "checksum" : Option String) = some l ∧ l ∈ ["checksum"]) ∨
        (∃ s, (none : Option String) = some s ∧ s ∈ ([] : List String)))) ∧
     ((status_for ⟨some "checksum", none, "OPT", "p", "0"⟩ ["checksum"] []).1 = "implemented" ∨
      (status_for ⟨some "checksum", none, "OPT", "p", "0"⟩ ["checksum"] []).1 = "missing")) ∧
    (status_for ⟨some "checksum", none, "OPT", "p", "0"⟩ [] [] ).1 = "missing" := by
  constructor
  · exact c2_status_iff_membership ⟨some "checksum", none, "OPT", "p", "0"⟩ ["checksum"] []
      (by decide) (by decide)
  · have h := (c2_status_iff_membership ⟨some "checksum", none, "OPT", "p", "0"⟩ [] []
      (by decide) (by decide))
    rcases h.2 with himp | hmiss
    · exfalso
      rcases h.1.mp himp with ⟨l, hl, hmem⟩ | ⟨s, hsx, _⟩
      · exact absurd hmem (by simp)
      · exact absurd hsx (by simp)
    · exact hmiss

/- ### C5 / C6 machinery -/

theorem mkParsedEntry_some_has_name (lraw sraw : Option (List Char))
    (g3 g4 g5 : List Char) (e : Entry)
    (h : mkParsedEntry lraw sraw g3 g4 g5 = some e) :
    ¬ (e.long = none ∧ e.short = none) := by
  unfold mkParsedEntry at h
  split at h
  · exact absurd h (by simp)
  · next hcond =>
      injection h with h'
      subst h'
      exact hcond

theorem parse_entry_ok_some_has_name (s : String) (e : Entry)
    (h : parse_entry s = .ok (some e)) :
    ¬ (e.long = none ∧ e.short = none) := by
  unfold parse_entry at h
  split at h
  · injection h with h'
    exact absurd h' (by simp)
  · split at h
    · exact absurd h (by simp)
    · injection h with h'
      exact mkParsedEntry_some_has_name _ _ _ _ _ _ h'

theorem parse_entry_error_shape (s : String) (err : MatrixError)
    (h : parse_entry s = .error err) : ∃ m, err = .entryParseError m := by
  unfold parse_entry at h
  split at h
  · exact absurd h (by simp)
  · split at h
    · injection h with h'
      exact ⟨_, h'.symm⟩
    · exact absurd h (by simp)

theorem collectEntries_ok_mem (rs : List (List Char)) (l : List Entry)
    (h : collectEntries rs = .ok l) :
    ∀ e ∈ l, ¬ (e.long = none ∧ e.short = none) := by
  induction rs generalizing l with
  | nil =>
      intro e he
      simp only [collectEntries] at h
      injection h with h'
      subst h'
      cases he
  | cons r rs ih =>
      intro e he
      simp only [collectEntries] at h
      split at h
      · exact absurd h (by simp)
      · exact ih l h e he
      · next ent hent =>
          split at h
          · exact absurd h (by simp)
          · next tail htail =>
              injection h with h'
              subst h'
              rcases List.mem_cons.mp he with rfl | hmem
              · exact parse_entry_ok_some_has_name _ _ hent
              · exact ih tail htail e hmem

theorem collectEntries_error_of_mem (rs : List (List Char))
    (h : ∃ r ∈ rs, ∃ err, parse_entry (String.mk r) = .error err) :
    ∃ m, collectEntries rs = .error (.entryParseError m) := by
  induction rs with
  | nil =>
      rcases h with ⟨r, hr, _⟩
      cases hr
  | cons r rs ih =>
      cases hp : parse_entry (String.mk r) with
      | error err =>
          obtain ⟨m, rfl⟩ := parse_entry_error_shape _ _ hp
          exact ⟨m, by simp [collectEntries, hp]⟩
      | ok o =>
          have htail : ∃ r' ∈ rs, ∃ err, parse_entry (String.mk r') = .error err := by
            rcases h with ⟨r', hr', err, he'⟩
            rcases List.mem_cons.mp hr' with rfl | hmem
            · rw [hp] at he'
              exact absurd he' (by simp)
            · exact ⟨r', hmem, err, he'⟩
          obtain ⟨m, hm⟩ := ih htail
          refine ⟨m, ?_⟩
          cases o with
          | none => simp [collectEntries, hp, hm]
          | some ent => simp [collectEntries, hp, hm]

/- ### C5 -/

/-- C5: a record whose long and short slots are both absent (the all-zero
sentinel or any degenerate record) never appears among the Entries
emitted by the entry scanner: every emitted Entry has a long name or a
short flag. -/
theorem c5_no_nameless_entry (src : String) (entries : List Entry)
    (h : parse_entries src = .ok entries) :
    ∀ e ∈ entries, ¬ (e.long = none ∧ e.short = none) := by
  unfold parse_entries at h
  split at h
  · exact absurd h (by simp)
  · exact collectEntries_ok_mem _ _ h

/-- Witness for C5 on a concrete table containing one real record, one
all-zero sentinel and one degenerate record: the single emitted Entry
has a name. -/
theorem c5_no_nameless_entry_witness :
    ¬ ((⟨some "foo", none, "OPT", "&x", "1"⟩ : Entry).long = none ∧
       (⟨some "foo", none, "OPT", "&x", "1"⟩ : Entry).short = none) :=
  c5_no_nameless_entry
    "static struct poptOption long_options[] = \x7b\n  \x7b\x22foo\x22, 0, OPT, &x, 1, 0, 0\x7d,\n  \x7b0, 0, OPT, none, 1, 0, 0\x7d,\n  \x7b0,0,0,0,0,0,0\x7d\n\x7d;"
    [⟨some "foo", none, "OPT", "&x", "1"⟩]
    (by rfl)
    ⟨some "foo", none, "OPT", "&x", "1"⟩
    (List.Mem.head _)

/- ### C6 -/

/-- C6: whenever the table region contains a brace-delimited record that
parses to neither a sentinel/degenerate `none` nor an Entry (the parser
raises), the whole run aborts with an EntryParseError and stdout receives
nothing: `mainOutput` is an error, not a (partial) rendering. -/
theorem c6_abort_on_malformed_record (src help : String) (fmt : OutputFormat)
    (body r : List Char) (err : MatrixError)
    (hb : tableBody src = some body) (hr : r ∈ ffrAux none body)
    (he : parse_entry (String.mk r) = .error err) :
    ∃ m, mainOutput src help fmt = .error (.entryParseError m) := by
  obtain ⟨m, hm⟩ := collectEntries_error_of_mem (ffrAux none body) ⟨r, hr, err, he⟩
  refine ⟨m, ?_⟩
  unfold mainOutput mainRecords parse_entries
  rw [hb]
  dsimp only
  rw [hm]

/-- Witness for C6 on a concrete source whose table holds a four-field
record: the run aborts with an EntryParseError (so no output). -/
theorem c6_abort_on_malformed_record_witness :
    ∃ m, mainOutput
        "static struct poptOption long_options[] = \x7b\n \x7b\x22a\x22, 0, OPT, p\x7d\n\x7d;"
        "" OutputFormat.yaml = .error (.entryParseError m) :=
  c6_abort_on_malformed_record
    "static struct poptOption long_options[] = \x7b\n \x7b\x22a\x22, 0, OPT, p\x7d\n\x7d;"
    "" OutputFormat.yaml
    ("\n \x7b\x22a\x22, 0, OPT, p\x7d".toList)
    ("\x7b\x22a\x22, 0, OPT, p\x7d".toList)
    (.entryParseError "Unable to parse entry: \x7b\x22a\x22, 0, OPT, p\x7d")
    (by rfl)
    (by rw [show ffrAux none ("\n \x7b\x22a\x22, 0, OPT, p\x7d".toList) =
          [("\x7b\x22a\x22, 0, OPT, p\x7d".toList)] from rfl]
        exact List.Mem.head _)
    (by rfl)

/- ### C7 -/

theorem shortScanAux_mem_precOk (full : List Char) :
    ∀ (i : Nat) (l : List Char) (j : Nat) (c : Char),
      (j, c) ∈ shortScanAux full i l → shortPrecOk full j = true := by
  intro i l
  induction i, l using shortScanAux.induct full with
  | case1 i =>
      intro j d h
      rw [shortScanAux.eq_1] at h
      cases h
  | case2 i =>
      intro j d h
      rw [shortScanAux.eq_2, if_pos rfl] at h
      cases h
  | case3 i c rest hg ih =>
      intro j d h
      rw [shortScanAux.eq_3, if_pos rfl, if_pos hg] at h
      rcases List.mem_cons.mp h with heq | hmem
      · have hj : j = i := congrArg Prod.fst heq
        subst hj
        exact ((Bool.and_eq_true _ _).mp hg).2
      · exact ih j d hmem
  | case4 i c rest hg ih =>
      intro j d h
      rw [shortScanAux.eq_3, if_pos rfl, if_neg hg] at h
      exact ih j d h
  | case5 i x rest hx ih =>
      intro j d h
      cases rest with
      | nil =>
          rw [shortScanAux.eq_2, if_neg hx, shortScanAux.eq_1] at h
          cases h
      | cons y ys =>
          rw [shortScanAux.eq_3, if_neg hx] at h
          exact ih j d h

/-- C7 counterexample: no help text makes the short-token scanner match a
dash whose preceding character is a word character or another dash — so
no spurious short token is ever extracted from inside a longer `--no-X`
style dashed token (the regex's `\B` assertion, present alongside the
lookbehind, rules it out); in particular `--no-whole-file` yields no
short tokens at all. -/
theorem c7_counterexample :
    (parse_help_options "--no-whole-file").2 = [] ∧
    ¬ ∃ (help : String) (i : Nat) (c p : Char),
        (i, c) ∈ shortMatches help ∧ 0 < i ∧
        help.toList.get? (i - 1) = some p ∧
        (isWordChar p = true ∨ p = '-') := by
  constructor
  · rfl
  · rintro ⟨help, i, c, p, hm, hi, hg, hw⟩
    have hpre := shortScanAux_mem_precOk help.toList 0 help.toList i c hm
    have hi0 : (i == 0) = false := by
      simp [Nat.pos_iff_ne_zero.mp hi]
    simp only [shortPrecOk, hi0, Bool.false_or, hg] at hpre
    obtain ⟨h1, h2⟩ := (Bool.and_eq_true _ _).mp hpre
    rcases hw with hw | hw
    · rw [hw] at h1
      exact absurd h1 (by decide)
    · subst hw
      exact absurd h2 (by decide)

/-- C7 (amended): the short-token scanner never extracts a token from
inside a longer dashed run — every extracted short token's introducing
dash is at position 0 or is preceded by a character that is neither a
word character nor a dash, because the regex combines the `(?<!-)`
lookbehind with the `\B` non-word-boundary assertion. -/
theorem c7_short_token_never_embedded (help : String) (i : Nat) (c : Char)
    (h : (i, c) ∈ shortMatches help) :
    i = 0 ∨ ∀ p, help.toList.get? (i - 1) = some p →
      (isWordChar p = false ∧ p ≠ '-') := by
  have hpre := shortScanAux_mem_precOk help.toList 0 help.toList i c h
  by_cases hi : i = 0
  · exact Or.inl hi
  · right
    intro p hp
    have hi0 : (i == 0) = false := by simp [hi]
    simp only [shortPrecOk, hi0, Bool.false_or, hp] at hpre
    obtain ⟨h1, h2⟩ := (Bool.and_eq_true _ _).mp hpre
    constructor
    · cases hw : isWordChar p with
      | false => rfl
      | true =>
          rw [hw] at h1
          exact absurd h1 (by decide)
    · intro he
      subst he
      exact absurd h2 (by decide)

/-- Witness for C7 at the help text `"x -v"`, whose single short match
sits at position 2 after a space. -/
theorem c7_short_token_never_embedded_witness :
    (2 = 0 ∨ ∀ p, "x -v".toList.get? (2 - 1) = some p →
      (isWordChar p = false ∧ p ≠ '-')) :=
  c7_short_token_never_embedded "x -v" 2 'v' (by decide)

/- ### C9 machinery -/

theorem takeWhileAppend (p : Char → Bool) (xs : List Char) (y : Char) (ys : List Char)
    (hx : ∀ x ∈ xs, p x = true) (hy : p y = false) :
    (xs ++ y :: ys).takeWhile p = xs := by
  induction xs with
  | nil => simp [List.takeWhile_cons, hy]
  | cons x xs ih =>
      have hpx := hx x (List.mem_cons_self x xs)
      simp only [List.cons_append, List.takeWhile_cons, hpx, if_true]
      simp [ih (fun z hz => hx z (List.mem_cons_of_mem x hz))]

theorem dropWhileAppend (p : Char → Bool) (xs : List Char) (y : Char) (ys : List Char)
    (hx : ∀ x ∈ xs, p x = true) (hy : p y = false) :
    (xs ++ y :: ys).dropWhile p = y :: ys := by
  induction xs with
  | nil => simp [List.dropWhile_cons, hy]
  | cons x xs ih =>
      have hpx := hx x (List.mem_cons_self x xs)
      simp only [List.cons_append, List.dropWhile_cons, hpx]
      exact ih (fun z hz => hx z (List.mem_cons_of_mem x hz))

theorem dropWhileAppendStop (p : Char → Bool) (xs : List Char) (y : Char) (ys : List Char)
    (hy : p y = false) :
    (xs ++ y :: ys).dropWhile p = xs.dropWhile p ++ y :: ys := by
  induction xs with
  | nil => simp [List.dropWhile_cons, hy]
  | cons x xs ih =>
      by_cases hpx : p x = true
      · simp [List.cons_append, List.dropWhile_cons, hpx, ih]
      · have : p x = false := by
          cases hx : p x
          · rfl
          · exact absurd hx hpx
        simp [List.cons_append, List.dropWhile_cons, this]

theorem pyStripStructured (h0 : Char) (mid tl : List Char)
    (hh : isPySpace h0 = false) :
    pyStrip (h0 :: (mid ++ [','] ++ tl)) =
      h0 :: (mid ++ [','] ++ (tl.reverse.dropWhile isPySpace).reverse) := by
  unfold pyStrip
  rw [List.dropWhile_cons, if_neg (by simp [hh])]
  rw [show (h0 :: (mid ++ [','] ++ tl)).reverse =
        tl.reverse ++ ',' :: (mid.reverse ++ [h0]) by simp]
  rw [dropWhileAppendStop _ _ _ _ (by decide)]
  simp

theorem strToListNeNil (s : String) (h : s ≠ "") : s.toList ≠ [] := by
  intro he
  apply h
  cases s with
  | mk data =>
      cases data with
      | nil => rfl
      | cons c cs => exact absurd he (by simp [String.toList])

theorem strMkToList (s : String) : String.mk s.toList = s := rfl

theorem allcapsNotSpace (c : Char) (h : isAllcapsChar c = true) : isPySpace c = false := by
  cases hsp : isPySpace c with
  | false => rfl
  | true =>
      exfalso
      simp only [isPySpace, Bool.or_eq_true, beq_iff_eq] at hsp
      rcases hsp with ((((h1 | h1) | h1) | h1) | h1) | h1 <;>
        (subst h1; exact absurd h (by decide))

theorem takeWhileAllTrue (p : Char → Bool) (xs : List Char)
    (hx : ∀ x ∈ xs, p x = true) : xs.takeWhile p = xs := by
  induction xs with
  | nil => rfl
  | cons x l ih =>
      simp [List.takeWhile_cons, hx x (List.mem_cons_self x l),
            ih (fun z hz => hx z (List.mem_cons_of_mem x hz))]

theorem dropWhileAllTrue (p : Char → Bool) (xs : List Char)
    (hx : ∀ x ∈ xs, p x = true) : xs.dropWhile p = [] := by
  induction xs with
  | nil => rfl
  | cons x l ih =>
      simp [List.dropWhile_cons, hx x (List.mem_cons_self x l),
            ih (fun z hz => hx z (List.mem_cons_of_mem x hz))]

theorem pyStripEqSelfOfEnds (c d : Char) (xs : List Char)
    (hc : isPySpace c = false) (hd : isPySpace d = false) :
    pyStrip (c :: (xs ++ [d])) = c :: (xs ++ [d]) := by
  unfold pyStrip
  rw [List.dropWhile_cons, if_neg (by simp [hc])]
  rw [show (c :: (xs ++ [d])).reverse = d :: (xs.reverse ++ [c]) by simp]
  rw [List.dropWhile_cons, if_neg (by simp [hd])]
  simp

theorem neSentinelGet (R : List Char) (i : Nat) (c : Char)
    (hR : R.get? i = some c)
    (h1 : ¬ (("\x7b0,0,0,0,0,0,0\x7d" : String).toList.get? i = some c))
    (h2 : ¬ (("\x7b0, 0, 0, 0, 0, 0, 0\x7d" : String).toList.get? i = some c)) :
    ¬ (String.mk R = "\x7b0,0,0,0,0,0,0\x7d" ∨
       String.mk R = "\x7b0, 0, 0, 0, 0, 0, 0\x7d") := by
  rintro (h | h)
  · have h3 : R = ("\x7b0,0,0,0,0,0,0\x7d" : String).toList := congrArg String.toList h
    rw [h3] at hR
    exact h1 hR
  · have h3 : R = ("\x7b0, 0, 0, 0, 0, 0, 0\x7d" : String).toList := congrArg String.toList h
    rw [h3] at hR
    exact h2 hR

theorem neSentinelCount (R : List Char) (hR : R.count ',' = 4) :
    ¬ (String.mk R = "\x7b0,0,0,0,0,0,0\x7d" ∨
       String.mk R = "\x7b0, 0, 0, 0, 0, 0, 0\x7d") := by
  rintro (h | h)
  · have h3 : R = ("\x7b0,0,0,0,0,0,0\x7d" : String).toList := congrArg String.toList h
    rw [h3] at hR
    exact absurd hR (by decide)
  · have h3 : R = ("\x7b0, 0, 0, 0, 0, 0, 0\x7d" : String).toList := congrArg String.toList h
    rw [h3] at hR
    exact absurd hR (by decide)

theorem matchEntryPattern_mkRecordL (lRaw sRaw : Option (List Char))
    (aL pL vL tL : List Char)
    (hlo : ∀ cs, lRaw = some cs → '\x22' ∉ cs)
    (hsq : ∀ cs, sRaw = some cs → '\x27' ∉ cs)
    (ha1 : aL ≠ []) (ha2 : ∀ x ∈ aL, isAllcapsChar x = true)
    (hp1 : pL ≠ []) (hp2 : ',' ∉ pL)
    (hv1 : vL ≠ []) (hv2 : ',' ∉ vL) :
    matchEntryPattern (mkRecordL lRaw sRaw aL pL vL tL) =
      some (lRaw, sRaw, aL, pL, vL) := by
  obtain ⟨a0, aR, rfl⟩ : ∃ a0 aR, aL = a0 :: aR := by
    cases aL with
    | nil => exact absurd rfl ha1
    | cons a0 aR => exact ⟨a0, aR, rfl⟩
  obtain ⟨p0, pR, rfl⟩ : ∃ p0 pR, pL = p0 :: pR := by
    cases pL with
    | nil => exact absurd rfl hp1
    | cons p0 pR => exact ⟨p0, pR, rfl⟩
  obtain ⟨v0, vR, rfl⟩ : ∃ v0 vR, vL = v0 :: vR := by
    cases vL with
    | nil => exact absurd rfl hv1
    | cons v0 vR => exact ⟨v0, vR, rfl⟩
  have ha0 := ha2 a0 (List.mem_cons_self _ _)
  have hwsa0 : isPySpace a0 = false := allcapsNotSpace a0 ha0
  have ha2R : ∀ x ∈ aR, isAllcapsChar x = true :=
    fun x hx => ha2 x (List.mem_cons_of_mem a0 hx)
  have hAt2 : ∀ ys, (aR ++ ',' :: ys).takeWhile isAllcapsChar = aR :=
    fun ys => takeWhileAppend _ _ _ _ ha2R (by decide)
  have hAd2 : ∀ ys, (aR ++ ',' :: ys).dropWhile isAllcapsChar = ',' :: ys :=
    fun ys => dropWhileAppend _ _ _ _ ha2R (by decide)
  have hp0 : (!(p0 == ',')) = true := by
    simp only [Bool.not_eq_true', beq_eq_false_iff_ne, ne_eq]
    rintro rfl
    exact hp2 (List.mem_cons_self _ _)
  have hpqR : ∀ x ∈ pR, (!(x == ',')) = true := by
    intro x hx
    simp only [Bool.not_eq_true', beq_eq_false_iff_ne, ne_eq]
    rintro rfl
    exact hp2 (List.mem_cons_of_mem p0 hx)
  have hPt2 : ∀ ys, (pR ++ ',' :: ys).takeWhile (fun c => !(c == ',')) = pR :=
    fun ys => takeWhileAppend _ _ _ _ hpqR (by decide)
  have hPd2 : ∀ ys, (pR ++ ',' :: ys).dropWhile (fun c => !(c == ',')) = ',' :: ys :=
    fun ys => dropWhileAppend _ _ _ _ hpqR (by decide)
  have hv0 : (!(v0 == ',')) = true := by
    simp only [Bool.not_eq_true', beq_eq_false_iff_ne, ne_eq]
    rintro rfl
    exact hv2 (List.mem_cons_self _ _)
  have hvqR : ∀ x ∈ vR, (!(x == ',')) = true := by
    intro x hx
    simp only [Bool.not_eq_true', beq_eq_false_iff_ne, ne_eq]
    rintro rfl
    exact hv2 (List.mem_cons_of_mem v0 hx)
  have hVt2 : ∀ ys, (vR ++ ',' :: ys).takeWhile (fun c => !(c == ',')) = vR :=
    fun ys => takeWhileAppend _ _ _ _ hvqR (by decide)
  have hVd2 : ∀ ys, (vR ++ ',' :: ys).dropWhile (fun c => !(c == ',')) = ',' :: ys :=
    fun ys => dropWhileAppend _ _ _ _ hvqR (by decide)
  have hq1 : isPySpace '\x22' = false := by decide
  have hq2 : isPySpace ',' = false := by decide
  have hq3 : isPySpace '0' = false := by decide
  have hq4 : isPySpace '\x27' = false := by decide
  have hn1 : ¬ (('0' : Char) = '\x27') := by decide
  have hn2 : ¬ (('0' : Char) = '\x22') := by decide
  have hn3 : ¬ (('\x27' : Char) = '\x22') := by decide
  have hn4 : ¬ ((',' : Char) = '\x22') := by decide
  have hn5 : ¬ ((',' : Char) = '\x27') := by decide
  have hn6 : ¬ ((',' : Char) = '0') := by decide
  cases lRaw with
  | none =>
      cases sRaw with
      | none =>
          simp [mkRecordL, longSlot, shortSlot, matchEntryPattern, skipWs, expectChar,
                List.dropWhile_cons, List.takeWhile_cons, hwsa0, ha0, hp0, hv0,
                hAt2, hAd2, hPt2, hPd2, hVt2, hVd2,
                hq1, hq2, hq3, hq4, hn1, hn2, hn3, hn4, hn5, hn6]
      | some cs =>
          have hsq2 := hsq cs rfl
          have hcq : ∀ x ∈ cs, (!(x == '\x27')) = true := by
            intro x hx
            simp only [Bool.not_eq_true', beq_eq_false_iff_ne, ne_eq]
            rintro rfl
            exact hsq2 hx
          have hSt : ∀ ys, (cs ++ '\x27' :: ys).takeWhile (fun c => !(c == '\x27')) = cs :=
            fun ys => takeWhileAppend _ _ _ _ hcq (by decide)
          have hSd : ∀ ys, (cs ++ '\x27' :: ys).dropWhile (fun c => !(c == '\x27')) =
              '\x27' :: ys :=
            fun ys => dropWhileAppend _ _ _ _ hcq (by decide)
          simp [mkRecordL, longSlot, shortSlot, matchEntryPattern, skipWs, expectChar,
                List.dropWhile_cons, List.takeWhile_cons, hwsa0, ha0, hp0, hv0,
                hSt, hSd, hAt2, hAd2, hPt2, hPd2, hVt2, hVd2,
                hq1, hq2, hq3, hq4, hn1, hn2, hn3, hn4, hn5, hn6]
  | some lL =>
      have hl2 := hlo lL rfl
      have hlq : ∀ x ∈ lL, (!(x == '\x22')) = true := by
        intro x hx
        simp only [Bool.not_eq_true', beq_eq_false_iff_ne, ne_eq]
        rintro rfl
        exact hl2 hx
      have hLt : ∀ ys, (lL ++ '\x22' :: ys).takeWhile (fun c => !(c == '\x22')) = lL :=
        fun ys => takeWhileAppend _ _ _ _ hlq (by decide)
      have hLd : ∀ ys, (lL ++ '\x22' :: ys).dropWhile (fun c => !(c == '\x22')) =
          '\x22' :: ys :=
        fun ys => dropWhileAppend _ _ _ _ hlq (by decide)
      cases sRaw with
      | none =>
          simp [mkRecordL, longSlot, shortSlot, matchEntryPattern, skipWs, expectChar,
                List.dropWhile_cons, List.takeWhile_cons, hwsa0, ha0, hp0, hv0,
                hLt, hLd, hAt2, hAd2, hPt2, hPd2, hVt2, hVd2,
                hq1, hq2, hq3, hq4, hn1, hn2, hn3, hn4, hn5, hn6]
      | some cs =>
          have hsq2 := hsq cs rfl
          have hcq : ∀ x ∈ cs, (!(x == '\x27')) = true := by
            intro x hx
            simp only [Bool.not_eq_true', beq_eq_false_iff_ne, ne_eq]
            rintro rfl
            exact hsq2 hx
          have hSt : ∀ ys, (cs ++ '\x27' :: ys).takeWhile (fun c => !(c == '\x27')) = cs :=
            fun ys => takeWhileAppend _ _ _ _ hcq (by decide)
          have hSd : ∀ ys, (cs ++ '\x27' :: ys).dropWhile (fun c => !(c == '\x27')) =
              '\x27' :: ys :=
            fun ys => dropWhileAppend _ _ _ _ hcq (by decide)
          simp [mkRecordL, longSlot, shortSlot, matchEntryPattern, skipWs, expectChar,
                List.dropWhile_cons, List.takeWhile_cons, hwsa0, ha0, hp0, hv0,
                hLt, hLd, hSt, hSd, hAt2, hAd2, hPt2, hPd2, hVt2, hVd2,
                hq1, hq2, hq3, hq4, hn1, hn2, hn3, hn4, hn5, hn6]

theorem matchEntryPattern_mkRecordFlatL (lRaw sRaw : Option (List Char))
    (aL pL vL : List Char)
    (hlo : ∀ cs, lRaw = some cs → '\x22' ∉ cs)
    (hsq : ∀ cs, sRaw = some cs → '\x27' ∉ cs)
    (ha1 : aL ≠ []) (ha2 : ∀ x ∈ aL, isAllcapsChar x = true)
    (hp1 : pL ≠ []) (hp2 : ',' ∉ pL)
    (hv1 : vL ≠ []) (hv2 : ',' ∉ vL) :
    matchEntryPattern (mkRecordFlatL lRaw sRaw aL pL vL) = none := by
  obtain ⟨a0, aR, rfl⟩ : ∃ a0 aR, aL = a0 :: aR := by
    cases aL with
    | nil => exact absurd rfl ha1
    | cons a0 aR => exact ⟨a0, aR, rfl⟩
  obtain ⟨p0, pR, rfl⟩ : ∃ p0 pR, pL = p0 :: pR := by
    cases pL with
    | nil => exact absurd rfl hp1
    | cons p0 pR => exact ⟨p0, pR, rfl⟩
  obtain ⟨v0, vR, rfl⟩ : ∃ v0 vR, vL = v0 :: vR := by
    cases vL with
    | nil => exact absurd rfl hv1
    | cons v0 vR => exact ⟨v0, vR, rfl⟩
  have ha0 := ha2 a0 (List.mem_cons_self _ _)
  have hwsa0 : isPySpace a0 = false := allcapsNotSpace a0 ha0
  have ha2R : ∀ x ∈ aR, isAllcapsChar x = true :=
    fun x hx => ha2 x (List.mem_cons_of_mem a0 hx)
  have hAt2 : ∀ ys, (aR ++ ',' :: ys).takeWhile isAllcapsChar = aR :=
    fun ys => takeWhileAppend _ _ _ _ ha2R (by decide)
  have hAd2 : ∀ ys, (aR ++ ',' :: ys).dropWhile isAllcapsChar = ',' :: ys :=
    fun ys => dropWhileAppend _ _ _ _ ha2R (by decide)
  have hp0 : (!(p0 == ',')) = true := by
    simp only [Bool.not_eq_true', beq_eq_false_iff_ne, ne_eq]
    rintro rfl
    exact hp2 (List.mem_cons_self _ _)
  have hpqR : ∀ x ∈ pR, (!(x == ',')) = true := by
    intro x hx
    simp only [Bool.not_eq_true', beq_eq_false_iff_ne, ne_eq]
    rintro rfl
    exact hp2 (List.mem_cons_of_mem p0 hx)
  have hPt2 : ∀ ys, (pR ++ ',' :: ys).takeWhile (fun c => !(c == ',')) = pR :=
    fun ys => takeWhileAppend _ _ _ _ hpqR (by decide)
  have hPd2 : ∀ ys, (pR ++ ',' :: ys).dropWhile (fun c => !(c == ',')) = ',' :: ys :=
    fun ys => dropWhileAppend _ _ _ _ hpqR (by decide)
  have hv0 : (!(v0 == ',')) = true := by
    simp only [Bool.not_eq_true', beq_eq_false_iff_ne, ne_eq]
    rintro rfl
    exact hv2 (List.mem_cons_self _ _)
  have hvqF : ∀ x ∈ vR ++ ['\x7d'], (!(x == ',')) = true := by
    intro x hx
    rcases List.mem_append.mp hx with hx | hx
    · simp only [Bool.not_eq_true', beq_eq_false_iff_ne, ne_eq]
      rintro rfl
      exact hv2 (List.mem_cons_of_mem v0 hx)
    · simp only [List.mem_singleton] at hx
      subst hx
      decide
  have hVtF : (vR ++ ['\x7d']).takeWhile (fun c => !(c == ',')) = vR ++ ['\x7d'] :=
    takeWhileAllTrue _ _ hvqF
  have hVdF : (vR ++ ['\x7d']).dropWhile (fun c => !(c == ',')) = [] :=
    dropWhileAllTrue _ _ hvqF
  have hq1 : isPySpace '\x22' = false := by decide
  have hq2 : isPySpace ',' = false := by decide
  have hq3 : isPySpace '0' = false := by decide
  have hq4 : isPySpace '\x27' = false := by decide
  have hn1 : ¬ (('0' : Char) = '\x27') := by decide
  have hn2 : ¬ (('0' : Char) = '\x22') := by decide
  have hn3 : ¬ (('\x27' : Char) = '\x22') := by decide
  have hn4 : ¬ ((',' : Char) = '\x22') := by decide
  have hn5 : ¬ ((',' : Char) = '\x27') := by decide
  have hn6 : ¬ ((',' : Char) = '0') := by decide
  cases lRaw with
  | none =>
      cases sRaw with
      | none =>
          simp [mkRecordFlatL, longSlot, shortSlot, matchEntryPattern, skipWs, expectChar,
                List.dropWhile_cons, List.takeWhile_cons, hwsa0, ha0, hp0, hv0,
                hAt2, hAd2, hPt2, hPd2, hVtF, hVdF,
                hq1, hq2, hq3, hq4, hn1, hn2, hn3, hn4, hn5, hn6]
      | some cs =>
          have hsq2 := hsq cs rfl
          have hcq : ∀ x ∈ cs, (!(x == '\x27')) = true := by
            intro x hx
            simp only [Bool.not_eq_true', beq_eq_false_iff_ne, ne_eq]
            rintro rfl
            exact hsq2 hx
          have hSt : ∀ ys, (cs ++ '\x27' :: ys).takeWhile (fun c => !(c == '\x27')) = cs :=
            fun ys => takeWhileAppend _ _ _ _ hcq (by decide)
          have hSd : ∀ ys, (cs ++ '\x27' :: ys).dropWhile (fun c => !(c == '\x27')) =
              '\x27' :: ys :=
            fun ys => dropWhileAppend _ _ _ _ hcq (by decide)
          simp [mkRecordFlatL, longSlot, shortSlot, matchEntryPattern, skipWs, expectChar,
                List.dropWhile_cons, List.takeWhile_cons, hwsa0, ha0, hp0, hv0,
                hSt, hSd, hAt2, hAd2, hPt2, hPd2, hVtF, hVdF,
                hq1, hq2, hq3, hq4, hn1, hn2, hn3, hn4, hn5, hn6]
  | some lL =>
      have hl2 := hlo lL rfl
      have hlq : ∀ x ∈ lL, (!(x == '\x22')) = true := by
        intro x hx
        simp only [Bool.not_eq_true', beq_eq_false_iff_ne, ne_eq]
        rintro rfl
        exact hl2 hx
      have hLt : ∀ ys, (lL ++ '\x22' :: ys).takeWhile (fun c => !(c == '\x22')) = lL :=
        fun ys => takeWhileAppend _ _ _ _ hlq (by decide)
      have hLd : ∀ ys, (lL ++ '\x22' :: ys).dropWhile (fun c => !(c == '\x22')) =
          '\x22' :: ys :=
        fun ys => dropWhileAppend _ _ _ _ hlq (by decide)
      cases sRaw with
      | none =>
          simp [mkRecordFlatL, longSlot, shortSlot, matchEntryPattern, skipWs, expectChar,
                List.dropWhile_cons, List.takeWhile_cons, hwsa0, ha0, hp0, hv0,
                hLt, hLd, hAt2, hAd2, hPt2, hPd2, hVtF, hVdF,
                hq1, hq2, hq3, hq4, hn1, hn2, hn3, hn4, hn5, hn6]
      | some cs =>
          have hsq2 := hsq cs rfl
          have hcq : ∀ x ∈ cs, (!(x == '\x27')) = true := by
            intro x hx
            simp only [Bool.not_eq_true', beq_eq_false_iff_ne, ne_eq]
            rintro rfl
            exact hsq2 hx
          have hSt : ∀ ys, (cs ++ '\x27' :: ys).takeWhile (fun c => !(c == '\x27')) = cs :=
            fun ys => takeWhileAppend _ _ _ _ hcq (by decide)
          have hSd : ∀ ys, (cs ++ '\x27' :: ys).dropWhile (fun c => !(c == '\x27')) =
              '\x27' :: ys :=
            fun ys => dropWhileAppend _ _ _ _ hcq (by decide)
          simp [mkRecordFlatL, longSlot, shortSlot, matchEntryPattern, skipWs, expectChar,
                List.dropWhile_cons, List.takeWhile_cons, hwsa0, ha0, hp0, hv0,
                hLt, hLd, hSt, hSd, hAt2, hAd2, hPt2, hPd2, hVtF, hVdF,
                hq1, hq2, hq3, hq4, hn1, hn2, hn3, hn4, hn5, hn6]

theorem mkRecordLShape (lRaw sRaw : Option (List Char)) (aL pL vL tL : List Char) :
    mkRecordL lRaw sRaw aL pL vL tL =
      '\x7b' :: ((longSlot lRaw ++ ',' :: (shortSlot sRaw ++ ',' ::
          (aL ++ ',' :: (pL ++ ',' :: vL)))) ++ [','] ++ tL) := by
  simp [mkRecordL, List.append_assoc]

theorem mkRecordFlatLShape (lRaw sRaw : Option (List Char)) (aL pL vL : List Char) :
    mkRecordFlatL lRaw sRaw aL pL vL =
      '\x7b' :: ((longSlot lRaw ++ ',' :: (shortSlot sRaw ++ ',' ::
          (aL ++ ',' :: (pL ++ ',' :: vL)))) ++ ['\x7d']) := by
  simp [mkRecordFlatL, List.append_assoc]

theorem mkRecordFlatLCommaCount (aL pL vL : List Char)
    (ha : ',' ∉ aL) (hp : ',' ∉ pL) (hv : ',' ∉ vL) :
    (mkRecordFlatL none none aL pL vL).count ',' = 4 := by
  rw [show mkRecordFlatL none none aL pL vL =
        '\x7b' :: '0' :: ',' :: '0' :: ',' ::
          (aL ++ ',' :: (pL ++ ',' :: (vL ++ ['\x7d']))) from rfl]
  simp [List.count_cons, List.count_append,
        List.count_eq_zero.mpr ha, List.count_eq_zero.mpr hp, List.count_eq_zero.mpr hv]

/-- C9 (amended): every flat record whose five significant fields are
followed by a comma parses without error — yielding exactly the Entry
built from the five fields when at least one of the long/short slots is
present, and silently discarded as degenerate (`None`) when both slots
are `0` — and the trailing text `suffix` after that comma never
influences `long`, `short`, `arg_info`, `arg_ptr` or `value` (the
conclusion does not mention `suffix`).  A record consisting of exactly
the five fields with no comma after the fifth is instead a fatal
EntryParseError. -/
theorem c9_five_fields_with_trailing_comma (l sc : Option String)
    (a p v suffix : String)
    (hlo : ∀ s, l = some s → (s ≠ "" ∧ '\x22' ∉ s.toList))
    (hs : ∀ s, sc = some s → (s ≠ "" ∧ '\x27' ∉ s.toList))
    (ha1 : a ≠ "") (ha2 : ∀ x ∈ a.toList, isAllcapsChar x = true)
    (hp1 : p ≠ "") (hp2 : ',' ∉ p.toList) (hp3 : pyStripS p = p)
    (hv1 : v ≠ "") (hv2 : ',' ∉ v.toList) (hv3 : pyStripS v = v) :
    parse_entry (mkRecord l sc a p v suffix) =
      .ok (if l = none ∧ sc = none then none else some ⟨l, sc, a, p, v⟩) ∧
    (∃ m, parse_entry (mkRecordFlat l sc a p v) = .error (.entryParseError m)) := by
  have hsqL : ∀ cs, l.map String.toList = some cs → '\x22' ∉ cs := by
    intro cs hcs
    cases l with
    | none => exact absurd hcs (by simp)
    | some s =>
        have heq : s.toList = cs := by simpa using hcs
        subst heq
        exact (hlo s rfl).2
  have hsqS : ∀ cs, sc.map String.toList = some cs → '\x27' ∉ cs := by
    intro cs hcs
    cases sc with
    | none => exact absurd hcs (by simp)
    | some s =>
        have heq : s.toList = cs := by simpa using hcs
        subst heq
        exact (hs s rfl).2
  have hmatch := matchEntryPattern_mkRecordL (l.map String.toList) (sc.map String.toList)
      a.toList p.toList v.toList ((suffix.toList.reverse.dropWhile isPySpace).reverse)
      hsqL hsqS (strToListNeNil a ha1) ha2 (strToListNeNil p hp1) hp2
      (strToListNeNil v hv1) hv2
  have hmatchF := matchEntryPattern_mkRecordFlatL (l.map String.toList)
      (sc.map String.toList) a.toList p.toList v.toList hsqL hsqS
      (strToListNeNil a ha1) ha2 (strToListNeNil p hp1) hp2 (strToListNeNil v hv1) hv2
  have htl : (mkRecord l sc a p v suffix).toList =
      mkRecordL (l.map String.toList) (sc.map String.toList) a.toList p.toList v.toList
        suffix.toList := rfl
  have htlF : (mkRecordFlat l sc a p v).toList =
      mkRecordFlatL (l.map String.toList) (sc.map String.toList) a.toList p.toList
        v.toList := rfl
  have hstrip : pyStrip (mkRecordL (l.map String.toList) (sc.map String.toList) a.toList
        p.toList v.toList suffix.toList) =
      mkRecordL (l.map String.toList) (sc.map String.toList) a.toList p.toList v.toList
        ((suffix.toList.reverse.dropWhile isPySpace).reverse) := by
    rw [mkRecordLShape, pyStripStructured _ _ _ (by decide), ← mkRecordLShape]
  have hstripF : pyStrip (mkRecordFlatL (l.map String.toList) (sc.map String.toList)
        a.toList p.toList v.toList) =
      mkRecordFlatL (l.map String.toList) (sc.map String.toList) a.toList p.toList
        v.toList := by
    rw [mkRecordFlatLShape, pyStripEqSelfOfEnds _ _ _ (by decide) (by decide),
        ← mkRecordFlatLShape]
  have hlf : longFromRaw (l.map String.toList) = l := by
    cases l with
    | none => rfl
    | some s =>
        show longFromRaw (some s.toList) = some s
        rw [longFromRaw]
        rw [if_neg (by
              simp only [List.isEmpty_eq_true]
              exact strToListNeNil s (hlo s rfl).1)]
        rw [if_neg (by
              rw [strMkToList]
              rintro rfl
              exact (hlo _ rfl).2 (by decide))]
        rw [stripQuotesEqSelf _ (hlo s rfl).2, strMkToList]
  have hsf : shortFromRaw (sc.map String.toList) = sc := by
    cases sc with
    | none => rfl
    | some s =>
        show shortFromRaw (some s.toList) = some s
        rw [shortFromRaw]
        rw [if_neg (by
              simp only [List.isEmpty_eq_true]
              exact strToListNeNil s (hs s rfl).1)]
        rw [strMkToList]
  have hanotws : ∀ x ∈ a.toList, isPySpace x = false :=
    fun x hx => allcapsNotSpace x (ha2 x hx)
  have hcomA : ',' ∉ a.toList := fun hmem => absurd (ha2 ',' hmem) (by decide)
  constructor
  · by_cases hdeg : l = none ∧ sc = none
    · obtain ⟨rfl, rfl⟩ := hdeg
      rw [if_pos ⟨rfl, rfl⟩]
      simp only [parse_entry, htl]
      rw [hstrip]
      split
      · rfl
      · rw [hmatch]
        simp [mkParsedEntry, longFromRaw, shortFromRaw]
    · have hsent : ¬ (String.mk (mkRecordL (l.map String.toList) (sc.map String.toList)
            a.toList p.toList v.toList
            ((suffix.toList.reverse.dropWhile isPySpace).reverse)) =
              "\x7b0,0,0,0,0,0,0\x7d" ∨
          String.mk (mkRecordL (l.map String.toList) (sc.map String.toList)
            a.toList p.toList v.toList
            ((suffix.toList.reverse.dropWhile isPySpace).reverse)) =
              "\x7b0, 0, 0, 0, 0, 0, 0\x7d") := by
        cases l with
        | some s => exact neSentinelGet _ 1 '\x22' rfl (by decide) (by decide)
        | none =>
            cases sc with
            | none => exact absurd ⟨rfl, rfl⟩ hdeg
            | some s2 => exact neSentinelGet _ 3 '\x27' rfl (by decide) (by decide)
      simp only [parse_entry, htl]
      rw [hstrip]
      rw [if_neg hsent]
      rw [hmatch]
      simp only [mkParsedEntry, hlf, hsf]
      rw [if_neg hdeg]
      rw [pyStripEqSelf _ hanotws, strMkToList]
      rw [show String.mk (pyStrip p.toList) = pyStripS p from rfl, hp3]
      rw [show String.mk (pyStrip v.toList) = pyStripS v from rfl, hv3]
      rw [if_neg hdeg]
  · have hsentF : ¬ (String.mk (mkRecordFlatL (l.map String.toList)
          (sc.map String.toList) a.toList p.toList v.toList) =
            "\x7b0,0,0,0,0,0,0\x7d" ∨
        String.mk (mkRecordFlatL (l.map String.toList) (sc.map String.toList)
          a.toList p.toList v.toList) = "\x7b0, 0, 0, 0, 0, 0, 0\x7d") := by
      cases l with
      | some s => exact neSentinelGet _ 1 '\x22' rfl (by decide) (by decide)
      | none =>
          cases sc with
          | some s2 => exact neSentinelGet _ 3 '\x27' rfl (by decide) (by decide)
          | none =>
              exact neSentinelCount _
                (mkRecordFlatLCommaCount a.toList p.toList v.toList hcomA hp2 hv2)
    refine ⟨"Unable to parse entry: " ++
        String.mk (mkRecordFlatL (l.map String.toList) (sc.map String.toList)
          a.toList p.toList v.toList), ?_⟩
    simp only [parse_entry, htlF]
    rw [hstripF]
    rw [if_neg hsentF]
    rw [hmatchF]

/-- C9 counterexample: a flat record consisting of exactly the five
significant fields and nothing else fails to parse (the grammar demands a
comma after the fifth field), and a five-field record with the trailing
comma whose long and short slots are both `0` yields no Entry at all —
both contradicting "every such record parses successfully into an
Entry". -/
theorem c9_counterexample :
    parse_entry "\x7b\x22x\x22, 0, OPT, ptr, 1\x7d" =
      .error (.entryParseError "Unable to parse entry: \x7b\x22x\x22, 0, OPT, ptr, 1\x7d") ∧
    parse_entry "\x7b0, 0, OPT, ptr, 1,\x7d" = .ok none := by
  constructor
  · rfl
  · rfl

/-- Witness for C9: the theorem instantiated at a record with both names
present, at a short-only record (long slot `0`), and at a degenerate
record (both slots `0`), each with two trailing fields, plus the
five-fields-no-comma failure. -/
theorem c9_five_fields_with_trailing_comma_witness :
    parse_entry (mkRecord (some "x") (some "y") "OPT" "ptr" "1" "0, 0\x7d") =
      .ok (some ⟨some "x", some "y", "OPT", "ptr", "1"⟩) ∧
    parse_entry (mkRecord none (some "y") "OPT" "ptr" "1" "0, 0\x7d") =
      .ok (some ⟨none, some "y", "OPT", "ptr", "1"⟩) ∧
    parse_entry (mkRecord none none "OPT" "ptr" "1" "0, 0\x7d") = .ok none ∧
    (∃ m, parse_entry (mkRecordFlat (some "x") (some "y") "OPT" "ptr" "1") =
      .error (.entryParseError m)) := by
  have h1 := c9_five_fields_with_trailing_comma (some "x") (some "y") "OPT" "ptr" "1"
    "0, 0\x7d"
    (by
      intro s h
      injection h with h2
      subst h2
      exact ⟨by decide, by decide⟩)
    (by
      intro s h
      injection h with h2
      subst h2
      exact ⟨by decide, by decide⟩)
    (by decide) (by decide) (by decide) (by decide) (by decide)
    (by decide) (by decide) (by decide)
  have h2 := c9_five_fields_with_trailing_comma none (some "y") "OPT" "ptr" "1"
    "0, 0\x7d" (fun s h => nomatch h)
    (by
      intro s h
      injection h with h2
      subst h2
      exact ⟨by decide, by decide⟩)
    (by decide) (by decide) (by decide) (by decide) (by decide)
    (by decide) (by decide) (by decide)
  have h3 := c9_five_fields_with_trailing_comma none none "OPT" "ptr" "1"
    "0, 0\x7d" (fun s h => nomatch h) (fun s h => nomatch h)
    (by decide) (by decide) (by decide) (by decide) (by decide)
    (by decide) (by decide) (by decide)
  refine ⟨?_, ?_, ?_, h1.2⟩
  · rw [h1.1]
    simp
  · rw [h2.1]
    simp
  · rw [h3.1]
    simp
